import Mathlib

set_option maxHeartbeats 1000000

namespace Flagtrack

/-!
Shallow embedding of the flagtrack CTF tracker (JavaScript sources under
src/commands and src/utils).  Strings are modelled as `List Char`; the
JavaScript regular expressions used by the writeup parser are modelled by
explicit scanning functions with the same match/greediness semantics.
-/

/-- JavaScript whitespace (the `\s` class and `String.prototype.trim`),
restricted to the characters that occur in this tool's inputs. -/
def jsIsSpace (c : Char) : Bool :=
  c = ' ' || c = '\t' || c = '\n' || c = '\r' || c = '\x0b' || c = '\x0c' || c = '\u00A0'

/-- JavaScript `String.prototype.trim`. -/
def jsTrim (s : List Char) : List Char :=
  ((s.dropWhile jsIsSpace).reverse.dropWhile jsIsSpace).reverse

/-- JavaScript `String.prototype.toLowerCase` (ASCII range, as used here). -/
def jsToLower (s : List Char) : List Char := s.map Char.toLower

/-- JavaScript `String.prototype.includes`: substring containment. -/
def containsSub : List Char → List Char → Bool
  | [], pat => pat.isEmpty
  | c :: t, pat => pat.isPrefixOf (c :: t) || containsSub t pat

/-- JavaScript truthiness of a string value: non-empty. -/
def jsTruthyStr (s : List Char) : Bool := !s.isEmpty

/-- Index of the last occurrence of `c` in `l`, if any. -/
def lastIdxOf (c : Char) : List Char → Option Nat
  | [] => none
  | a :: t =>
    match lastIdxOf c t with
    | some j => some (j + 1)
    | none => if a = c then some 0 else none

/-- A character the JavaScript regex `.` matches (anything but a line
terminator). -/
def jsDot (c : Char) : Bool := c ≠ '\n' && c ≠ '\r'

/-- Greedy match of `` `(.+)` `` at the start of `rest` (the tail of the regex
``/\*\*Flag:\*\* `(.+)`/`` after the literal label): the capture runs to the
last backtick of the current line and must be non-empty. -/
def backtickCapture (rest : List Char) : Option (List Char) :=
  let line := rest.takeWhile jsDot
  match lastIdxOf '`' line with
  | some j => if 1 ≤ j then some (line.take j) else none
  | none => none

/-- First match of the regex ``/\*\*Flag:\*\* `(.+)`/`` in the text, returning
the capture group — the flag extraction shared by `extractMetadata`
(updateReadme.js) and `scanAllChallenges` (create.js). -/
def extractFlag : List Char → Option (List Char)
  | [] => none
  | c :: t =>
    if "**Flag:** `".data.isPrefixOf (c :: t) then
      match backtickCapture ((c :: t).drop "**Flag:** `".data.length) with
      | some cap => some cap
      | none => extractFlag t
    else extractFlag t

/-- Decimal digits to a number (JavaScript `parseInt` on a `\d+` capture). -/
def digitsToNat (ds : List Char) : Nat :=
  ds.foldl (fun acc c => acc * 10 + (c.toNat - '0'.toNat)) 0

/-- First match of the regex `/\*\*Points:\*\* (\d+)/`, returning the parsed
capture group. -/
def extractPoints : List Char → Option Nat
  | [] => none
  | c :: t =>
    if "**Points:** ".data.isPrefixOf (c :: t) then
      let ds := ((c :: t).drop "**Points:** ".data.length).takeWhile Char.isDigit
      if ds.isEmpty then extractPoints t else some (digitsToNat ds)
    else extractPoints t

/-- First match of a regex `/label(.+)/`, returning the capture group (the
rest of the matched line, greedy, non-empty). -/
def lineCapture (label : String) : List Char → Option (List Char)
  | [] => none
  | c :: t =>
    if label.data.isPrefixOf (c :: t) then
      let line := ((c :: t).drop label.data.length).takeWhile jsDot
      if line.isEmpty then lineCapture label t else some line
    else lineCapture label t

/-- The completion rule of `scanAllChallenges` (create.js): the JavaScript
expression `flag && flag !== 'TBD'` with `flag` null when the flag regex does
not match. -/
def isCompletedScan (content : List Char) : Bool :=
  match extractFlag content with
  | none => false
  | some f => jsTruthyStr f && !(f == "TBD".data)

/-- The flag string computed by `extractMetadata` (updateReadme.js): the
regex capture, or the empty string when the regex does not match. -/
def flagReadme (content : List Char) : List Char := (extractFlag content).getD []

/-- The completion rule of `extractMetadata` (updateReadme.js): the
JavaScript expression `flag && flag !== 'TBD'` with `flag` a string that is
empty when the flag regex does not match. -/
def isCompletedReadme (content : List Char) : Bool :=
  jsTruthyStr (flagReadme content) && !(flagReadme content == "TBD".data)

/-- One scanned challenge record, as built by `scanAllChallenges`
(create.js). -/
structure Challenge where
  name : String
  points : Nat
  category : String
  isCompleted : Bool
  solver : Option String
  competition : String
  taskNum : String
deriving DecidableEq, Repr

/-- The per-writeup metadata extraction of `scanAllChallenges` (create.js):
name from the heading regex (folder name as fallback), points from the
points regex (0 as fallback), completion from the flag, solver from the
solver regex (null as fallback). -/
def scanWriteup (folderName : String) (competition : String)
    (categoryName : String) (content : List Char) : Challenge :=
  { name := match lineCapture "# 🧩 " content with
      | some l => String.mk l
      | none => folderName
    points := (extractPoints content).getD 0
    category := categoryName
    isCompleted := isCompletedScan content
    solver := (lineCapture "**Solver:** " content).map (fun l => String.mk (jsTrim l))
    competition := competition
    taskNum := folderName.take 2 }

/-- Match of the `\s+and\s+` alternative of the solver-split regex at the
start of the list: a non-empty whitespace run, the literal `and`, and a
non-empty whitespace run (each `\s+` greedy; backtracking cannot shorten
them because `a` and the following character are not whitespace). -/
def andSep (cs : List Char) : Option (List Char) :=
  if (cs.takeWhile jsIsSpace).isEmpty then none
  else if "and".data.isPrefixOf (cs.dropWhile jsIsSpace) then
    if (((cs.dropWhile jsIsSpace).drop 3).takeWhile jsIsSpace).isEmpty then none
    else some (((cs.dropWhile jsIsSpace).drop 3).dropWhile jsIsSpace)
  else none

/-- A separator of the solver-split regex `/,|\s+and\s+|&/` matching at the
head of the list: returns the remainder after the separator.  The three
alternatives start with mutually exclusive characters, so JavaScript's
leftmost-alternative order is immaterial. -/
def sepAt : List Char → Option (List Char)
  | [] => none
  | c :: r =>
    if c = ',' then some r
    else if c = '&' then some r
    else andSep (c :: r)

theorem length_dropWhile_lt {p : Char → Bool} {l : List Char}
    (h : (l.takeWhile p).isEmpty = false) :
    (l.dropWhile p).length < l.length := by
  have hlen : (l.takeWhile p).length + (l.dropWhile p).length = l.length := by
    rw [← List.length_append, List.takeWhile_append_dropWhile]
  have : 0 < (l.takeWhile p).length := by
    cases htw : l.takeWhile p with
    | nil => rw [htw] at h; simp at h
    | cons a t => simp [htw]
  omega

theorem andSep_length {cs r : List Char} (h : andSep cs = some r) :
    r.length < cs.length := by
  unfold andSep at h
  split at h
  · simp at h
  · rename_i h1
    split at h
    · split at h
      · simp at h
      · rename_i h3
        rw [Option.some.injEq] at h
        subst h
        have ha : ((((cs.dropWhile jsIsSpace).drop 3).dropWhile jsIsSpace).length)
            < (((cs.dropWhile jsIsSpace).drop 3).length) :=
          length_dropWhile_lt (by simpa using h3)
        have hb : (((cs.dropWhile jsIsSpace).drop 3).length)
            ≤ ((cs.dropWhile jsIsSpace).length) := by
          simp [List.length_drop]
        have hc : ((cs.dropWhile jsIsSpace).length) < cs.length :=
          length_dropWhile_lt (by simpa using h1)
        omega
    · simp at h

theorem sepAt_length {cs r : List Char} (h : sepAt cs = some r) :
    r.length < cs.length := by
  cases cs with
  | nil => simp [sepAt] at h
  | cons c t =>
    rw [sepAt] at h
    split at h
    · rw [Option.some.injEq] at h
      subst h
      simp
    · split at h
      · rw [Option.some.injEq] at h
        subst h
        simp
      · exact andSep_length h

/-- JavaScript `String.prototype.split` with the regex `/,|\s+and\s+|&/`:
tokens between the leftmost non-overlapping separator matches.  Structural
recursion on a fuel argument so that the kernel can evaluate it; by
`sepAt_length` every separator consumes at least one character, so fuel
equal to the input length (as supplied by `splitTokens`) never runs out. -/
def splitTokensF : Nat → List Char → List Char → List (List Char)
  | _, [], acc => [acc.reverse]
  | 0, rest, acc => [acc.reverse ++ rest]
  | fuel + 1, c :: rest, acc =>
    match sepAt (c :: rest) with
    | some r => acc.reverse :: splitTokensF fuel r []
    | none => splitTokensF fuel rest (c :: acc)

/-- JavaScript `split(/,|\s+and\s+|&/)` on a character list. -/
def splitTokens (cs : List Char) (acc : List Char) : List (List Char) :=
  splitTokensF cs.length cs acc

/-- The solver-split pipeline of `processSolvers` (create.js):
`split(/,|\s+and\s+|&/)`, `map(name => name.trim())`,
`filter(name => name.length > 0)`. -/
def splitSolverNames (s : String) : List String :=
  (((splitTokens s.data []).map jsTrim).filter
      (fun t => !t.isEmpty)).map (fun t => String.mk t)

/-- `processSolvers` (create.js): empty/placeholder solver strings give no
solvers; a string whose lowercasing contains "team effort" collapses to the
single entry "Team effort"; anything else is split into individual names.
The argument is `Option String` because the caller passes null when the
writeup has no Solver line. -/
def processSolvers (solverStr : Option String) : List String :=
  match solverStr with
  | none => []
  | some s =>
    if s = "" || s = "TBD" || s = "Unknown" then []
    else if containsSub (jsToLower s.data) "team effort".data then ["Team effort"]
    else splitSolverNames s

example : processSolvers (some "Alice, Bob, and Charlie") = ["Alice", "Bob", "Charlie"] := by
  decide
example : processSolvers (some "TEAM EFFORT") = ["Team effort"] := by decide
example : processSolvers (some "Alice and team effort") = ["Team effort"] := by decide
example : processSolvers (some "TBD") = [] := by decide
example : processSolvers none = [] := by decide
example : processSolvers (some "Alice & Bob") = ["Alice", "Bob"] := by decide
example : splitSolverNames "Alice and team effort" = ["Alice", "team effort"] := by decide

/-- A per-challenge record pushed onto a solver's challenge list. -/
structure ChalRec where
  name : String
  points : Nat
  category : String
  competition : String
deriving DecidableEq, Repr

/-- Per-solver running statistics (the JS object `solvers[name]`);
`categories` and `competitions` model the JS `Set` objects as
insertion-ordered duplicate-free lists. -/
structure SolverStats where
  name : String
  points : Nat
  solved : Nat
  challenges : List ChalRec
  categories : List String
  competitions : List String
deriving DecidableEq, Repr

/-- JS `Set.prototype.add` on the insertion-ordered list model. -/
def addToSet (s : List String) (x : String) : List String :=
  if x ∈ s then s else s ++ [x]

/-- Running totals (the JS object `totals`). -/
structure Totals where
  challenges : Nat
  solved : Nat
  points : Nat
  categories : List String
  competitions : List String
deriving DecidableEq, Repr

/-- The fresh solver entry created by `processLeaderboardData` when a name
is first seen. -/
def initStats (nm : String) : SolverStats :=
  { name := nm, points := 0, solved := 0, challenges := [],
    categories := [], competitions := [] }

/-- The per-solver update in the inner loop of `processLeaderboardData`:
full challenge points, one solved count, the challenge record, and the
category/competition set memberships. -/
def bumpStats (c : Challenge) (st : SolverStats) : SolverStats :=
  { st with
    points := st.points + c.points
    solved := st.solved + 1
    challenges := st.challenges ++
      [{ name := c.name, points := c.points, category := c.category,
         competition := c.competition }]
    categories := addToSet st.categories c.category
    competitions := addToSet st.competitions c.competition }

/-- Credit one decomposed solver name for challenge `c` in the solvers map
(modelled as an insertion-ordered association list): create the entry if
absent (JS `if (!solvers[solverName])`), then update it. -/
def creditOne (c : Challenge) :
    List (String × SolverStats) → String → List (String × SolverStats)
  | [], nm => [(nm, bumpStats c (initStats nm))]
  | (k, st) :: rest, nm =>
    if k = nm then (k, bumpStats c st) :: rest
    else (k, st) :: creditOne c rest nm

/-- One iteration of the main loop of `processLeaderboardData` over a
challenge: the category/competition sets always grow; solved count, point
total and solver credits only for completed challenges. -/
def stepChallenge (acc : List (String × SolverStats) × Totals) (c : Challenge) :
    List (String × SolverStats) × Totals :=
  let totals :=
    { acc.2 with
      categories := addToSet acc.2.categories c.category
      competitions := addToSet acc.2.competitions c.competition }
  if c.isCompleted then
    ((processSolvers c.solver).foldl (creditOne c) acc.1,
     { totals with solved := totals.solved + 1, points := totals.points + c.points })
  else (acc.1, totals)

/-- The fold of `processLeaderboardData` (create.js) over the challenge
list, before percentages and sorting; `totals.challenges` is initialised to
the length of the input list and never changed. -/
def aggregate (challenges : List Challenge) :
    List (String × SolverStats) × Totals :=
  challenges.foldl stepChallenge
    ([], { challenges := challenges.length, solved := 0, points := 0,
           categories := [], competitions := [] })

/-- A JavaScript percentage `x / y * 100`: `none` models the non-finite
result (NaN for `0/0`, Infinity otherwise) produced when `y = 0`; the
source applies `.toFixed(1)` formatting afterwards, which is not modelled. -/
def jsPercent (x y : Nat) : Option ℚ :=
  if y = 0 then none else some ((x : ℚ) / (y : ℚ) * 100)

/-- A solver entry after the percentage pass of `processLeaderboardData`. -/
structure SolverOut where
  stats : SolverStats
  percentSolved : Option ℚ
  percentPoints : Option ℚ
deriving DecidableEq, Repr

/-- The percentage pass: each solver's share of the total solved count and
of the total points. -/
def addPercents (totals : Totals) (st : SolverStats) : SolverOut :=
  { stats := st
    percentSolved := jsPercent st.solved totals.solved
    percentPoints := jsPercent st.points totals.points }

/-- The sort comparator `(a, b) => b.points - a.points` with ties broken by
`b.solved - a.solved`, as a "may come first" relation: descending points,
then descending solved count. -/
def solverBefore (a b : SolverOut) : Bool :=
  if a.stats.points = b.stats.points then decide (b.stats.solved ≤ a.stats.solved)
  else decide (b.stats.points < a.stats.points)

/-- Stable insertion into a sorted list: `x` goes before the first element
it may precede. -/
def insertSorted (le : SolverOut → SolverOut → Bool) (x : SolverOut) :
    List SolverOut → List SolverOut
  | [] => [x]
  | y :: rest => if le x y then x :: y :: rest else y :: insertSorted le x rest

/-- Stable sort (V8's `Array.prototype.sort` is stable, and every stable
sort computes the same list for a total preorder). -/
def stableSort (le : SolverOut → SolverOut → Bool) : List SolverOut → List SolverOut
  | [] => []
  | x :: rest => insertSorted le x (stableSort le rest)

/-- Output totals of `processLeaderboardData`: the category/competition
sets replaced by their sizes. -/
structure TotalsOut where
  challenges : Nat
  solved : Nat
  points : Nat
  categories : Nat
  competitions : Nat
deriving DecidableEq, Repr

/-- `processLeaderboardData` (create.js): fold the challenges into
per-solver statistics and totals, attach percentage shares, sort the
solvers descending, and convert the sets to counts. -/
def processLeaderboardData (challenges : List Challenge) :
    List SolverOut × TotalsOut :=
  let st := aggregate challenges
  (stableSort solverBefore (st.1.map (fun p => addPercents st.2 p.2)),
   { challenges := st.2.challenges, solved := st.2.solved,
     points := st.2.points, categories := st.2.categories.length,
     competitions := st.2.competitions.length })

/-- Association-list lookup for the solvers map. -/
def lookupS (solvers : List (String × SolverStats)) (nm : String) :
    Option SolverStats :=
  match solvers with
  | [] => none
  | (k, st) :: rest => if k = nm then some st else lookupS rest nm

/-- JS `flag.replace(/"/g, '&quot;')` used for the tooltip title
(`generateReadme`, updateReadme.js). -/
def escapeQuotes (s : List Char) : List Char :=
  (s.map (fun c => if c = '"' then "&quot;".data else [c])).flatten

/-- The flag cell of a README table row (`generateReadme`,
updateReadme.js): the placeholder renders as a literal TBD tag, an
empty/absent flag as "No flag", a flag longer than 30 characters truncated
to its first 27 characters with the full quote-escaped value in an HTML
`title` attribute, and any other flag verbatim in backticks. -/
def flagDisplay (flag : List Char) : List Char :=
  if !jsTruthyStr flag || flag == "TBD".data then
    if flag == "TBD".data then "`TBD`".data else "No flag".data
  else if flag.length > 30 then
    "<code title=\"".data ++ escapeQuotes flag ++ "\">".data
      ++ flag.take 27 ++ "...</code>".data
  else "`".data ++ flag ++ "`".data

/-- JavaScript `String(n).padStart(2, '0')`. -/
def pad2 (n : Nat) : String :=
  if (toString n).length < 2 then "0" ++ toString n else toString n

/-- A JavaScript word character (`\w`): letters, digits, underscore. -/
def isWordChar (c : Char) : Bool :=
  ('a' ≤ c && c ≤ 'z') || ('A' ≤ c && c ≤ 'Z') || ('0' ≤ c && c ≤ '9') || c = '_'

/-- `replace(/\s+/g, '_')`: each maximal whitespace run becomes a single
underscore (the flag tracks whether we are inside a run). -/
def collapseSpacesGo : Bool → List Char → List Char
  | _, [] => []
  | inRun, c :: t =>
    if jsIsSpace c then
      if inRun then collapseSpacesGo true t else '_' :: collapseSpacesGo true t
    else c :: collapseSpacesGo false t

/-- `replace(/\-+/g, '_')`: each maximal dash run becomes a single
underscore. -/
def collapseDashesGo : Bool → List Char → List Char
  | _, [] => []
  | inRun, c :: t =>
    if c = '-' then
      if inRun then collapseDashesGo true t else '_' :: collapseDashesGo true t
    else c :: collapseDashesGo false t

/-- `slugify` (src/utils/helpers.js): trim, lowercase, whitespace runs to
single underscores, strip characters outside `[\w\-_]`, dash runs to a
single underscore. -/
def slugify (s : String) : String :=
  String.mk (collapseDashesGo false
    ((collapseSpacesGo false (jsToLower (jsTrim s.data))).filter
      (fun c => isWordChar c || c = '-')))

/-- The collision suffix of `createTaskStructure` (create.js): the last up
to six characters of the decimal Unix timestamp
(`Math.floor(Date.now() / 1000).toString().slice(-6)`). -/
def timestampSuffix (t : Nat) : String :=
  String.mk ((toString t).data.drop ((toString t).data.length - 6))

/-- The task folder name chosen by `createTaskStructure` (create.js):
`{2-digit number}_{slug(name)}`, with `_{timestamp suffix}` appended when
that folder already exists in the category folder (`existing` lists the
folder names already present). -/
def taskFolderName (existing : List String) (taskNum : Nat)
    (taskName : String) (t : Nat) : String :=
  let base := pad2 taskNum ++ "_" ++ slugify taskName
  if base ∈ existing then base ++ "_" ++ timestampSuffix t else base

/-- A filesystem path as a list of segments from the root. -/
abbrev FsPath := List String

/-- The bounded upward walk of `findRepoRoot` (src/utils/gitHelpers.js)
used when the git subprocess fails: check up to 5 directories (the start
and four parents, stopping at the filesystem root) for a `.git` entry.
`fs` is the set of existing paths. -/
def findRepoRootWalk (fs : List FsPath) : Nat → FsPath → Option FsPath
  | 0, _ => none
  | fuel + 1, p =>
    if (p ++ [".git"]) ∈ fs then some p
    else if p.dropLast = p then none
    else findRepoRootWalk fs fuel p.dropLast

/-- `findRepoRoot` with its 5-iteration bound. -/
def findRepoRoot (fs : List FsPath) (cwd : FsPath) : Option FsPath :=
  findRepoRootWalk fs 5 cwd

/-- `path.basename` on the segment model (empty for the root). -/
def basename (p : FsPath) : String := p.getLast?.getD ""

/-- The error thrown by `validateLocation` when no repository root is
found. -/
inductive VLError where
  | notInRepository
deriving DecidableEq, Repr

deriving instance DecidableEq for Except

/-- `validateLocation` (src/utils/helpers.js): resolve the CTF root
directory from the repository root, the competition name and the optional
parent directory.  Returns the chosen path together with whether the
directory had to be created (`fs.mkdirp`); `.error` models the thrown
"Not in a git repository" error. -/
def validateLocation (fs : List FsPath) (cwd : FsPath) (ctfName : String)
    (parentDir : Option String) : Except VLError (FsPath × Bool) :=
  match findRepoRoot fs cwd with
  | none => .error .notInRepository
  | some repoRoot =>
    if basename cwd = ctfName then .ok (cwd, false)
    else
      match parentDir with
      | some pd =>
        if basename cwd = pd ∧ (cwd ++ [ctfName]) ∈ fs then
          .ok (cwd ++ [ctfName], false)
        else if (repoRoot ++ [pd]) ∈ fs then
          if (repoRoot ++ [pd, ctfName]) ∈ fs then
            .ok (repoRoot ++ [pd, ctfName], false)
          else .ok (repoRoot ++ [pd, ctfName], true)
        else if (repoRoot ++ [ctfName]) ∈ fs then
          .ok (repoRoot ++ [ctfName], false)
        else .ok (repoRoot ++ [ctfName], true)
      | none =>
        if (repoRoot ++ [ctfName]) ∈ fs then .ok (repoRoot ++ [ctfName], false)
        else .ok (repoRoot ++ [ctfName], true)

/-- One commit from the git log oracle of `getFlagSolver`: the author name
and the patch text that `git show` returns for the writeup file. -/
structure Commit where
  author_name : String
  diff : String
deriving DecidableEq, Repr

/-- Match of the diff regex of `getFlagSolver` (updateReadme.js) at the
start of the character list: a minus sign, optional whitespace, the
placeholder flag line, the rest of that line, a newline, a plus sign,
optional whitespace, and a flag line with a non-empty backtick-delimited
value. -/
def flagTransitionAt (cs : List Char) : Bool :=
  match cs with
  | '-' :: r1 =>
    if "**Flag:** `TBD`".data.isPrefixOf (r1.dropWhile jsIsSpace) then
      match ((r1.dropWhile jsIsSpace).drop "**Flag:** `TBD`".data.length).dropWhile jsDot with
      | '\n' :: '+' :: r5 =>
        if "**Flag:** `".data.isPrefixOf (r5.dropWhile jsIsSpace) then
          !(((r5.dropWhile jsIsSpace).drop "**Flag:** `".data.length).takeWhile
              (fun c => c ≠ '`')).isEmpty
            && !(((r5.dropWhile jsIsSpace).drop "**Flag:** `".data.length).dropWhile
              (fun c => c ≠ '`')).isEmpty
        else false
      | _ => false
    else false
  | _ => false

/-- Whether a commit's patch contains the TBD-to-value flag transition
anywhere (JavaScript `String.prototype.match` scans every position). -/
def diffHasFlagTransition : List Char → Bool
  | [] => false
  | c :: t => flagTransitionAt (c :: t) || diffHasFlagTransition t

/-- `getFlagSolver` (updateReadme.js).  The git subprocess results are an
oracle input: `none` models any thrown error (caught and converted to
null), `some commits` the log entries in log order together with their
patches.  Returns the author of the first commit in log order whose patch
shows the flag changing from the placeholder; null otherwise. -/
def getFlagSolver (gitLog : Option (List Commit)) : Option String :=
  match gitLog with
  | none => none
  | some commits =>
    if commits.isEmpty then none
    else
      match commits.find? (fun c => diffHasFlagTransition c.diff.data) with
      | some c => some (String.mk (jsTrim c.author_name.data))
      | none => none

/-- JavaScript `a || b` for a nullable string `a`. -/
def jsOrStr (a : Option String) (b : String) : String :=
  match a with
  | none => b
  | some s => if s = "" then b else s

/-- The metadata record returned by `extractMetadata` (updateReadme.js). -/
structure Metadata where
  name : String
  points : Nat
  category : String
  isCompleted : Bool
  hasFlag : Bool
  solver : String
  flag : String
deriving DecidableEq, Repr

/-- The file-embedded solver of `extractMetadata`: the writeup's Solver
line, trimmed, with "Unknown" as fallback. -/
def fileSolverOf (content : List Char) : String :=
  match lineCapture "**Solver:** " content with
  | some l => String.mk (jsTrim l)
  | none => "Unknown"

/-- `extractMetadata` (updateReadme.js): parse the writeup fields; for a
completed writeup consult the git history for the solver and prefer it
over the file's own Solver field (`gitSolver || fileSolver`). -/
def extractMetadata (content : List Char) (gitLog : Option (List Commit)) :
    Metadata :=
  { name := match lineCapture "# 🧩 " content with
      | some l => String.mk l
      | none => "Unknown Challenge"
    points := (extractPoints content).getD 0
    category := match lineCapture "**Category:** " content with
      | some l => String.mk (jsTrim l)
      | none => "Uncategorized"
    isCompleted := isCompletedReadme content
    hasFlag := jsTruthyStr (flagReadme content)
    solver := jsOrStr
      (if isCompletedReadme content then getFlagSolver gitLog else none)
      (fileSolverOf content)
    flag := String.mk (flagReadme content) }

example : extractFlag "**Flag:** `CTF{abc}`  ".data = some "CTF{abc}".data := by decide
example : extractFlag "**Flag:** `TBD`  ".data = some "TBD".data := by decide
example : extractFlag "**Flag:** nothing".data = none := by decide
example : extractPoints "**Points:** 150  ".data = some 150 := by decide
example : extractPoints "**Points:** TBD  ".data = none := by decide
example : isCompletedScan "**Flag:** `TBD`".data = false := by decide
example : isCompletedScan "**Flag:** `x`".data = true := by decide

/-! ### Helper lemmas about the flag extraction -/

theorem lastIdxOf_lt_length {c : Char} {l : List Char} {j : Nat}
    (h : lastIdxOf c l = some j) : j < l.length := by
  induction l generalizing j with
  | nil => simp [lastIdxOf] at h
  | cons a t ih =>
    rw [lastIdxOf] at h
    cases hrec : lastIdxOf c t with
    | some k =>
      rw [hrec] at h
      rw [Option.some.injEq] at h
      subst h
      have := ih hrec
      simp
      omega
    | none =>
      rw [hrec] at h
      by_cases ha : a = c
      · simp [ha] at h
        subst h
        simp
      · simp [ha] at h

theorem backtickCapture_ne_nil {rest cap : List Char}
    (h : backtickCapture rest = some cap) : cap ≠ [] := by
  simp only [backtickCapture] at h
  cases hl : lastIdxOf '`' (rest.takeWhile jsDot) with
  | none => rw [hl] at h; simp at h
  | some j =>
    rw [hl] at h
    by_cases hj : 1 ≤ j
    · simp only [hj, if_true, Option.some.injEq] at h
      have hjl := lastIdxOf_lt_length hl
      subst h
      intro hnil
      have hlen : (List.take j (List.takeWhile jsDot rest)).length = 0 := by
        rw [hnil]
        rfl
      rw [List.length_take] at hlen
      omega
    · simp [hj] at h

theorem extractFlag_ne_nil {content f : List Char}
    (h : extractFlag content = some f) : f ≠ [] := by
  induction content with
  | nil => simp [extractFlag] at h
  | cons c t ih =>
    rw [extractFlag] at h
    split at h
    · cases hb : backtickCapture ((c :: t).drop "**Flag:** `".data.length) with
      | some cap =>
        rw [hb] at h
        rw [Option.some.injEq] at h
        subst h
        exact backtickCapture_ne_nil hb
      | none =>
        rw [hb] at h
        exact ih h
    · exact ih h

/-- C1: for every writeup text the completion predicate of the leaderboard
scanner (`scanAllChallenges`, create.js) and of the README metadata
extractor (`extractMetadata`, updateReadme.js) agree, and both hold exactly
when the extracted flag string is non-empty and differs from the
placeholder sentinel "TBD"; in particular a text with an absent or
placeholder flag is never completed. -/
theorem c1_completed_iff_nonempty_non_sentinel (content : List Char) :
    isCompletedScan content = isCompletedReadme content ∧
    (isCompletedReadme content = true ↔
      flagReadme content ≠ [] ∧ flagReadme content ≠ "TBD".data) ∧
    ((extractFlag content = none ∨ extractFlag content = some "TBD".data) →
      isCompletedScan content = false) := by
  refine ⟨?_, ?_, ?_⟩
  · cases hf : extractFlag content with
    | none => simp [isCompletedScan, isCompletedReadme, flagReadme, hf, jsTruthyStr]
    | some f => simp [isCompletedScan, isCompletedReadme, flagReadme, hf]
  · cases hf : extractFlag content with
    | none =>
      simp [isCompletedReadme, flagReadme, hf, jsTruthyStr]
    | some f =>
      simp [isCompletedReadme, flagReadme, hf, jsTruthyStr,
        List.isEmpty_iff, and_comm]
  · intro hor
    cases hor with
    | inl h => simp [isCompletedScan, h]
    | inr h => simp [isCompletedScan, h]

/-- C1 witness: the theorem applied to a concrete placeholder-flag text. -/
theorem c1_witness :
    isCompletedScan "**Flag:** `TBD`  ".data = false :=
  (c1_completed_iff_nonempty_non_sentinel "**Flag:** `TBD`  ".data).2.2
    (Or.inr (by decide))

/-! ### C2: solver string decomposition -/

theorem isPrefixOf_self (l : List Char) : l.isPrefixOf l = true := by
  induction l with
  | nil => rfl
  | cons c t ih => simp [List.isPrefixOf, ih]

theorem containsSub_refl (l : List Char) : containsSub l l = true := by
  cases l with
  | nil => rfl
  | cons c t => simp [containsSub, isPrefixOf_self]

/-- The decomposition rule exactly as claim C2 states it: a string that is
the literal phrase "team effort" (case-insensitively) gives exactly
["Team effort"], and any other string is split on comma, ampersand or the
word "and" into trimmed names with empty tokens dropped. -/
def claimC2Rule (s : String) : Prop :=
  (jsToLower s.data = "team effort".data → processSolvers (some s) = ["Team effort"]) ∧
  (jsToLower s.data ≠ "team effort".data → processSolvers (some s) = splitSolverNames s)

/-- C2 counterexample: "Alice and team effort" is not the literal phrase,
yet `processSolvers` collapses it to ["Team effort"] because the source
tests substring containment (`includes`), not equality; the split the
claim prescribes would give ["Alice", "team effort"]. -/
theorem c2_counterexample :
    ¬ claimC2Rule "Alice and team effort" ∧
    processSolvers (some "Alice and team effort") = ["Team effort"] ∧
    splitSolverNames "Alice and team effort" = ["Alice", "team effort"] := by
  refine ⟨?_, by decide, by decide⟩
  intro hrule
  have hne : jsToLower "Alice and team effort".data ≠ "team effort".data := by decide
  have := hrule.2 hne
  have hcode : processSolvers (some "Alice and team effort") = ["Team effort"] := by decide
  have hsplit : splitSolverNames "Alice and team effort" = ["Alice", "team effort"] := by
    decide
  rw [hcode, hsplit] at this
  simp at this

/-- C2 amended: strings that are empty or the sentinels "TBD"/"Unknown"
decompose to no solvers; a string whose lowercasing contains "team effort"
as a substring (hence in particular the literal phrase itself, in any
case) collapses to exactly ["Team effort"]; every other string is split on
comma, ampersand, or the whitespace-delimited word "and" into trimmed
names with empty tokens dropped — "Alice, Bob, and Charlie" gives exactly
["Alice", "Bob", "Charlie"]. -/
theorem c2_amended :
    (∀ s : String, jsToLower s.data = "team effort".data →
      processSolvers (some s) = ["Team effort"]) ∧
    (∀ s : String, s ≠ "" → s ≠ "TBD" → s ≠ "Unknown" →
      containsSub (jsToLower s.data) "team effort".data = true →
      processSolvers (some s) = ["Team effort"]) ∧
    (∀ s : String, s ≠ "" → s ≠ "TBD" → s ≠ "Unknown" →
      containsSub (jsToLower s.data) "team effort".data = false →
      processSolvers (some s) = splitSolverNames s) ∧
    processSolvers none = [] ∧
    processSolvers (some "") = [] ∧
    processSolvers (some "TBD") = [] ∧
    processSolvers (some "Unknown") = [] ∧
    processSolvers (some "Alice, Bob, and Charlie") = ["Alice", "Bob", "Charlie"] := by
  refine ⟨?_, ?_, ?_, by decide, by decide, by decide, by decide, by decide⟩
  · intro s h
    have hlen : s.data.length = "team effort".data.length := by
      have := congrArg List.length h
      simpa [jsToLower] using this
    have h1 : s ≠ "" := by
      intro he
      rw [he] at hlen
      exact absurd hlen (by decide)
    have h2 : s ≠ "TBD" := by
      intro he
      rw [he] at hlen
      exact absurd hlen (by decide)
    have h3 : s ≠ "Unknown" := by
      intro he
      rw [he] at hlen
      exact absurd hlen (by decide)
    have hcont : containsSub (jsToLower s.data) "team effort".data = true := by
      rw [h]
      exact containsSub_refl _
    simp [processSolvers, h1, h2, h3, hcont]
  · intro s h1 h2 h3 hcont
    simp [processSolvers, h1, h2, h3, hcont]
  · intro s h1 h2 h3 hcont
    simp [processSolvers, h1, h2, h3, hcont]

/-- C2 witness: the amended theorem applied to the all-caps phrase. -/
theorem c2_witness : processSolvers (some "TEAM EFFORT") = ["Team effort"] :=
  c2_amended.1 "TEAM EFFORT" (by decide)

/-! ### Aggregation lemmas -/

/-- Sum of the per-solver solved counters over the solvers map. -/
def sumSolved (solvers : List (String × SolverStats)) : Nat :=
  (solvers.map (fun p => p.2.solved)).sum

/-- The initial totals record of `processLeaderboardData` for an input of
`n` challenges. -/
def initTotals (n : Nat) : Totals :=
  { challenges := n, solved := 0, points := 0, categories := [], competitions := [] }

theorem lookupS_creditOne_self (c : Challenge)
    (solvers : List (String × SolverStats)) (nm : String) :
    lookupS (creditOne c solvers nm) nm =
      some (bumpStats c ((lookupS solvers nm).getD (initStats nm))) := by
  induction solvers with
  | nil => simp [creditOne, lookupS]
  | cons p rest ih =>
    obtain ⟨k, st⟩ := p
    by_cases hk : k = nm
    · simp [creditOne, lookupS, hk]
    · simp [creditOne, lookupS, hk, ih]

theorem lookupS_creditOne_other (c : Challenge)
    (solvers : List (String × SolverStats)) (nm k : String) (hne : k ≠ nm) :
    lookupS (creditOne c solvers nm) k = lookupS solvers k := by
  induction solvers with
  | nil => simp [creditOne, lookupS, Ne.symm hne]
  | cons p rest ih =>
    obtain ⟨k2, st⟩ := p
    by_cases hk : k2 = nm
    · subst hk
      simp [creditOne, lookupS, Ne.symm hne]
    · simp [creditOne, lookupS, hk, ih]

theorem lookupS_foldl_not_mem (c : Challenge) (names : List String)
    (nm : String) (hnm : nm ∉ names) :
    ∀ solvers, lookupS (names.foldl (creditOne c) solvers) nm = lookupS solvers nm := by
  induction names with
  | nil => intro solvers; rfl
  | cons a rest ih =>
    intro solvers
    rw [List.foldl_cons]
    have hane : nm ≠ a := fun h => hnm (h ▸ List.mem_cons_self a rest)
    rw [ih (fun h => hnm (List.mem_cons_of_mem a h))]
    exact lookupS_creditOne_other c solvers a nm hane

theorem lookupS_foldl_creditOne (c : Challenge) (names : List String)
    (nm : String) (hmem : nm ∈ names) (hnd : names.Nodup) :
    ∀ solvers, lookupS (names.foldl (creditOne c) solvers) nm =
      some (bumpStats c ((lookupS solvers nm).getD (initStats nm))) := by
  induction names with
  | nil => cases hmem
  | cons a rest ih =>
    intro solvers
    rw [List.foldl_cons]
    rcases List.mem_cons.mp hmem with h | h
    · subst h
      have hnotin : nm ∉ rest := (List.nodup_cons.mp hnd).1
      rw [lookupS_foldl_not_mem c rest nm hnotin]
      exact lookupS_creditOne_self c solvers nm
    · have hane : nm ≠ a := by
        intro he
        exact (List.nodup_cons.mp hnd).1 (he ▸ h)
      rw [ih h (List.nodup_cons.mp hnd).2]
      rw [lookupS_creditOne_other c solvers a nm hane]

theorem sumSolved_creditOne (c : Challenge)
    (solvers : List (String × SolverStats)) (nm : String) :
    sumSolved (creditOne c solvers nm) = sumSolved solvers + 1 := by
  induction solvers with
  | nil => simp [creditOne, sumSolved, bumpStats, initStats]
  | cons p rest ih =>
    obtain ⟨k, st⟩ := p
    by_cases hk : k = nm
    · simp [creditOne, hk, sumSolved, bumpStats]
      omega
    · simp [creditOne, hk, sumSolved] at *
      omega

theorem sumSolved_foldl (c : Challenge) (names : List String) :
    ∀ solvers, sumSolved (names.foldl (creditOne c) solvers) =
      sumSolved solvers + names.length := by
  induction names with
  | nil => intro solvers; simp
  | cons a rest ih =>
    intro solvers
    rw [List.foldl_cons, ih, sumSolved_creditOne]
    simp
    omega

theorem foldl_stepChallenge_invariant (l : List Challenge) :
    ∀ (s : List (String × SolverStats)) (t : Totals),
      (l.foldl stepChallenge (s, t)).2.challenges = t.challenges ∧
      (l.foldl stepChallenge (s, t)).2.solved =
        t.solved + (l.filter (fun c => c.isCompleted)).length ∧
      (l.foldl stepChallenge (s, t)).2.points =
        t.points + ((l.filter (fun c => c.isCompleted)).map (fun c => c.points)).sum ∧
      sumSolved (l.foldl stepChallenge (s, t)).1 =
        sumSolved s + ((l.filter (fun c => c.isCompleted)).map
          (fun c => (processSolvers c.solver).length)).sum := by
  induction l with
  | nil => intro s t; simp
  | cons c rest ih =>
    intro s t
    rw [List.foldl_cons]
    by_cases hc : c.isCompleted
    · simp only [stepChallenge, hc, if_true]
      have h := ih ((processSolvers c.solver).foldl (creditOne c) s)
        { challenges := t.challenges, solved := t.solved + 1,
          points := t.points + c.points,
          categories := addToSet t.categories c.category,
          competitions := addToSet t.competitions c.competition }
      simp only [List.filter_cons, hc, if_true, List.length_cons, List.map_cons,
        List.sum_cons]
      refine ⟨by simpa using h.1, ?_, ?_, ?_⟩
      · have := h.2.1
        simp at this
        omega
      · have := h.2.2.1
        simp at this
        omega
      · have := h.2.2.2
        rw [sumSolved_foldl] at this
        omega
    · simp only [stepChallenge, hc, if_false]
      have h := ih s
        { challenges := t.challenges, solved := t.solved, points := t.points,
          categories := addToSet t.categories c.category,
          competitions := addToSet t.competitions c.competition }
      simp only [List.filter_cons, hc, if_false]
      refine ⟨by simpa using h.1, by simpa using h.2.1,
        by simpa using h.2.2.1, by simpa using h.2.2.2⟩

/-! ### C3, C4, C10: leaderboard aggregation -/

/-- A completed 100-point challenge credited to the solver string
"Alice, Bob". -/
def chalAliceBob : Challenge :=
  { name := "t1", points := 100, category := "web", isCompleted := true,
    solver := some "Alice, Bob", competition := "CTF", taskNum := "01" }

/-- C3: for every completed challenge, each name of the decomposed solver
list is credited the challenge's full point value and a full solved count
(`bumpStats` is the exact per-solver update of the source's inner loop);
concretely, a 100-point task solved by "Alice, Bob" gives both Alice and
Bob 100 points and 1 solve, so the per-solver point sum (200) exceeds the
aggregate total (100). -/
theorem c3_full_credit_per_solver :
    (∀ (solvers : List (String × SolverStats)) (t : Totals) (c : Challenge)
        (nm : String),
      c.isCompleted = true → (processSolvers c.solver).Nodup →
      nm ∈ processSolvers c.solver →
      lookupS ((stepChallenge (solvers, t) c).1) nm =
        some (bumpStats c ((lookupS solvers nm).getD (initStats nm)))) ∧
    (∀ (c : Challenge) (st : SolverStats),
      (bumpStats c st).points = st.points + c.points ∧
      (bumpStats c st).solved = st.solved + 1) ∧
    (lookupS (aggregate [chalAliceBob]).1 "Alice").map
      (fun st => (st.points, st.solved)) = some (100, 1) ∧
    (lookupS (aggregate [chalAliceBob]).1 "Bob").map
      (fun st => (st.points, st.solved)) = some (100, 1) ∧
    (processLeaderboardData [chalAliceBob]).2.points = 100 ∧
    ((processLeaderboardData [chalAliceBob]).1.map
      (fun s => s.stats.points)).sum = 200 ∧
    (100 : Nat) < 200 := by
  refine ⟨?_, ?_, by decide, by decide, by decide, by decide, by decide⟩
  · intro solvers t c nm hc hnd hmem
    simp only [stepChallenge, hc, if_true]
    exact lookupS_foldl_creditOne c _ nm hmem hnd solvers
  · intro c st
    exact ⟨rfl, rfl⟩

/-- C3 witness: the per-solver credit applied to the concrete challenge. -/
theorem c3_witness :
    lookupS ((stepChallenge ([], initTotals 1) chalAliceBob).1) "Alice" =
      some (bumpStats chalAliceBob
        ((lookupS [] "Alice").getD (initStats "Alice"))) :=
  c3_full_credit_per_solver.1 [] (initTotals 1)
    chalAliceBob "Alice" (by decide) (by decide) (by decide)

/-- Concrete writeup corpus for the C4 example: four writeups worth
100/200/300/400 points, the 400-point one still holding the placeholder
flag. -/
def writeupW100 : List Char :=
  "# 🧩 A\n\n**Category:** web  \n**Points:** 100  \n**Flag:** `flag_a`  \n**Solver:** Alice\n".data

def writeupW200 : List Char :=
  "# 🧩 B\n\n**Category:** crypto  \n**Points:** 200  \n**Flag:** `flag_b`  \n**Solver:** Bob\n".data

def writeupW300 : List Char :=
  "# 🧩 C\n\n**Category:** pwn  \n**Points:** 300  \n**Flag:** `flag_c`  \n**Solver:** Alice\n".data

def writeupW400 : List Char :=
  "# 🧩 D\n\n**Category:** misc  \n**Points:** 400  \n**Flag:** `TBD`  \n**Solver:** TBD\n".data

/-- The four writeups as scanned by `scanAllChallenges`. -/
def fourScanned : List Challenge :=
  [scanWriteup "01_a" "CTF" "web" writeupW100,
   scanWriteup "01_b" "CTF" "crypto" writeupW200,
   scanWriteup "01_c" "CTF" "pwn" writeupW300,
   scanWriteup "01_d" "CTF" "misc" writeupW400]

/-- C4: for every challenge list, `totals.challenges` is the list length,
`totals.solved` counts the completed challenges, and `totals.points` sums
points over exactly the completed challenges; for writeups worth
100/200/300/400 points where only the 400-point one retains the sentinel
flag, the totals are 4 challenges, 3 solved, 600 points. -/
theorem c4_totals :
    (∀ challenges : List Challenge,
      (processLeaderboardData challenges).2.challenges = challenges.length ∧
      (processLeaderboardData challenges).2.solved =
        (challenges.filter (fun c => c.isCompleted)).length ∧
      (processLeaderboardData challenges).2.points =
        ((challenges.filter (fun c => c.isCompleted)).map
          (fun c => c.points)).sum) ∧
    (processLeaderboardData fourScanned).2.challenges = 4 ∧
    (processLeaderboardData fourScanned).2.solved = 3 ∧
    (processLeaderboardData fourScanned).2.points = 600 := by
  refine ⟨?_, by decide, by decide, by decide⟩
  intro challenges
  have h := foldl_stepChallenge_invariant challenges []
    (initTotals challenges.length)
  refine ⟨?_, ?_, ?_⟩
  · simpa [processLeaderboardData, aggregate, initTotals] using h.1
  · simpa [processLeaderboardData, aggregate, initTotals] using h.2.1
  · simpa [processLeaderboardData, aggregate, initTotals] using h.2.2.1

/-- A completed challenge whose writeup still carries the placeholder
solver "TBD". -/
def chalNoSolver : Challenge :=
  { name := "t2", points := 100, category := "web", isCompleted := true,
    solver := some "TBD", competition := "CTF", taskNum := "02" }

/-- C10: absent/"TBD"/"Unknown" solver strings decompose to no solvers; the
sum over all solvers of their solved counts equals the sum over completed
challenges of the size of each decomposed solver list; a completed
sentinel-solver challenge raises `totals.solved` and `totals.points` while
crediting nobody, so that sum can be strictly below `totals.solved`. -/
theorem c10_uncredited_solves :
    processSolvers none = [] ∧
    processSolvers (some "TBD") = [] ∧
    processSolvers (some "Unknown") = [] ∧
    (∀ challenges : List Challenge,
      sumSolved (aggregate challenges).1 =
        ((challenges.filter (fun c => c.isCompleted)).map
          (fun c => (processSolvers c.solver).length)).sum) ∧
    (aggregate [chalNoSolver]).2.solved = 1 ∧
    (aggregate [chalNoSolver]).2.points = 100 ∧
    sumSolved (aggregate [chalNoSolver]).1 = 0 ∧
    (0 : Nat) < 1 := by
  refine ⟨by decide, by decide, by decide, ?_, by decide, by decide,
    by decide, by decide⟩
  intro challenges
  have h := (foldl_stepChallenge_invariant challenges []
    (initTotals challenges.length)).2.2.2
  simpa [aggregate, initTotals, sumSolved] using h

/-! ### C5: percentage division by zero -/

/-- A completed challenge worth zero points with a named solver: the
aggregate total points is 0 while a solver entry exists. -/
def chalZeroPoints : Challenge :=
  { name := "z", points := 0, category := "misc", isCompleted := true,
    solver := some "Alice", competition := "CTF", taskNum := "03" }

/-- C5 divergence: the percentage computation of `processLeaderboardData`
is NOT special-cased: a zero total makes the JavaScript division produce a
non-finite number (NaN for the reachable 0/0 case), modelled as `none`;
with a single completed zero-point challenge the solver entry exists,
total points is zero, and the solver's percentage of points is NaN rather
than the 0 the claim requires. -/
theorem c5_percent_division_unguarded :
    (∀ x : Nat, jsPercent x 0 = none) ∧
    (processLeaderboardData [chalZeroPoints]).2.points = 0 ∧
    (processLeaderboardData [chalZeroPoints]).1.map (fun s => s.stats.name)
      = ["Alice"] ∧
    (processLeaderboardData [chalZeroPoints]).1.map (fun s => s.percentPoints)
      = [none] := by
  exact ⟨fun x => rfl, by decide, by decide, by decide⟩

/-! ### C6: location resolver ladder -/

/-- The resolution ladder exactly as claim C6 states it: step 2 fires
whenever P is set and (cwd basename equals P, or R/P exists), and always
yields R/P/N, created if needed. -/
def claimC6Ladder (fs : List FsPath) (cwd : FsPath) (ctfName : String)
    (parentDir : Option String) : Except VLError (FsPath × Bool) :=
  match findRepoRoot fs cwd with
  | none => .error .notInRepository
  | some repoRoot =>
    if basename cwd = ctfName then .ok (cwd, false)
    else
      match parentDir with
      | some pd =>
        if basename cwd = pd ∨ (repoRoot ++ [pd]) ∈ fs then
          if (repoRoot ++ [pd, ctfName]) ∈ fs then
            .ok (repoRoot ++ [pd, ctfName], false)
          else .ok (repoRoot ++ [pd, ctfName], true)
        else if (repoRoot ++ [ctfName]) ∈ fs then .ok (repoRoot ++ [ctfName], false)
        else .ok (repoRoot ++ [ctfName], true)
      | none =>
        if (repoRoot ++ [ctfName]) ∈ fs then .ok (repoRoot ++ [ctfName], false)
        else .ok (repoRoot ++ [ctfName], true)

/-- Filesystem for the C6 counterexample: repository root r, existing
directory r/sub/P/N, current directory r/sub/P. -/
def c6fs : List FsPath := [["r", ".git"], ["r", "sub", "P", "N"]]

def c6cwd : FsPath := ["r", "sub", "P"]

/-- C6 counterexample: with cwd r/sub/P (basename equal to the parent
directory P) and r/sub/P/N existing, the source returns the existing cwd/N
without creating anything, while the claim's step 2 prescribes
R/P/N = r/P/N, created; the results differ. -/
theorem c6_counterexample :
    validateLocation c6fs c6cwd "N" (some "P")
      = .ok (["r", "sub", "P", "N"], false) ∧
    claimC6Ladder c6fs c6cwd "N" (some "P") = .ok (["r", "P", "N"], true) ∧
    validateLocation c6fs c6cwd "N" (some "P")
      ≠ claimC6Ladder c6fs c6cwd "N" (some "P") := by
  refine ⟨by decide, by decide, ?_⟩
  intro h
  rw [show validateLocation c6fs c6cwd "N" (some "P")
      = .ok (["r", "sub", "P", "N"], false) from by decide,
    show claimC6Ladder c6fs c6cwd "N" (some "P")
      = .ok (["r", "P", "N"], true) from by decide] at h
  simp at h

/-- C6 amended: the resolver ladder with step 2 split in two: if P is set
and the cwd basename equals P and cwd/N already exists, cwd/N is returned
as-is (nothing is created and R/P/N is not consulted); otherwise if R/P
exists, R/P/N is returned, created if missing; then R/N is returned if it
exists, else created; and the resolver fails with the not-in-repository
error when the bounded root search finds no `.git` marker. -/
theorem c6_amended (fs : List FsPath) (cwd : FsPath) (N : String)
    (P : Option String) :
    (findRepoRoot fs cwd = none →
      validateLocation fs cwd N P = .error .notInRepository) ∧
    (∀ R, findRepoRoot fs cwd = some R → basename cwd = N →
      validateLocation fs cwd N P = .ok (cwd, false)) ∧
    (∀ R pd, findRepoRoot fs cwd = some R → basename cwd ≠ N →
      P = some pd → basename cwd = pd → (cwd ++ [N]) ∈ fs →
      validateLocation fs cwd N P = .ok (cwd ++ [N], false)) ∧
    (∀ R pd, findRepoRoot fs cwd = some R → basename cwd ≠ N →
      P = some pd → ¬(basename cwd = pd ∧ (cwd ++ [N]) ∈ fs) →
      (R ++ [pd]) ∈ fs →
      validateLocation fs cwd N P =
        .ok (R ++ [pd, N], if (R ++ [pd, N]) ∈ fs then false else true)) ∧
    (∀ R, findRepoRoot fs cwd = some R → basename cwd ≠ N →
      (∀ pd, P = some pd →
        ¬(basename cwd = pd ∧ (cwd ++ [N]) ∈ fs) ∧ (R ++ [pd]) ∉ fs) →
      validateLocation fs cwd N P =
        .ok (R ++ [N], if (R ++ [N]) ∈ fs then false else true)) := by
  refine ⟨?_, ?_, ?_, ?_, ?_⟩
  · intro hroot
    simp [validateLocation, hroot]
  · intro R hroot hbase
    simp [validateLocation, hroot, hbase]
  · intro R pd hroot hbase hP hpd hex
    have hpdN : ¬ pd = N := fun h => hbase (by rw [hpd, h])
    simp [validateLocation, hroot, hbase, hP, hpd, hex, hpdN]
  · intro R pd hroot hbase hP hcond hpar
    simp only [validateLocation, hroot, hP]
    rw [if_neg hbase, if_neg hcond, if_pos hpar]
    split <;> simp_all
  · intro R hroot hbase hP
    cases hp : P with
    | none =>
      simp only [validateLocation, hroot, hp]
      rw [if_neg hbase]
      split <;> simp_all
    | some pd =>
      have h := hP pd hp
      simp only [validateLocation, hroot, hp]
      rw [if_neg hbase, if_neg h.1, if_neg h.2]
      split <;> simp_all

/-- C6 witness: the amended ladder applied to concrete inputs (cwd/N
branch and the not-in-repository failure). -/
theorem c6_witness :
    validateLocation c6fs c6cwd "N" (some "P")
      = .ok (c6cwd ++ ["N"], false) ∧
    validateLocation [] [] "N" none = .error .notInRepository :=
  ⟨(c6_amended c6fs c6cwd "N" (some "P")).2.2.1 ["r"] "P" (by decide)
      (by decide) rfl (by decide) (by decide),
    (c6_amended [] [] "N" none).1 (by decide)⟩

/-! ### C7: solver attribution fallback -/

/-- A completed writeup whose Solver line names Alice. -/
def writeupSolved : List Char :=
  "# 🧩 T\n\n**Category:** web  \n**Points:** 50  \n**Flag:** `flag_x`  \n**Solver:** Alice\n".data

/-- A git log whose only commit shows the flag transition but carries an
empty author name. -/
def emptyAuthorLog : List Commit :=
  [{ author_name := "",
     diff := "-  **Flag:** `TBD`  \n+  **Flag:** `flag_x`  \n" }]

/-- C7 counterexample: attribution can succeed with a non-null but empty
author name; the JavaScript `gitSolver || fileSolver` then still falls
back to the writeup's Solver field, contradicting the claim that the
resulting solver is the git-derived author whenever attribution
succeeds. -/
theorem c7_counterexample :
    getFlagSolver (some emptyAuthorLog) = some "" ∧
    (extractMetadata writeupSolved (some emptyAuthorLog)).isCompleted = true ∧
    fileSolverOf writeupSolved = "Alice" ∧
    (extractMetadata writeupSolved (some emptyAuthorLog)).solver = "Alice" ∧
    ("" : String) ≠ "Alice" := by
  refine ⟨by decide, by decide, by decide, by decide, by decide⟩

/-- C7 amended: the attribution routine returns null when the git call
fails, when the history is empty, and when no commit's patch shows the
flag transition; for a completed writeup the resulting solver field is the
git-derived author when attribution yields a non-empty name, and the
writeup's own Solver field when attribution yields null or an empty name
(JavaScript falsiness of the empty string). -/
theorem c7_attribution_fallback (content : List Char)
    (gitLog : Option (List Commit)) :
    getFlagSolver none = none ∧
    getFlagSolver (some []) = none ∧
    (∀ commits : List Commit,
      (∀ c ∈ commits, diffHasFlagTransition c.diff.data = false) →
      getFlagSolver (some commits) = none) ∧
    (isCompletedReadme content = true →
      ((getFlagSolver gitLog = none ∨ getFlagSolver gitLog = some "") →
        (extractMetadata content gitLog).solver = fileSolverOf content) ∧
      (∀ a, getFlagSolver gitLog = some a → a ≠ "" →
        (extractMetadata content gitLog).solver = a)) := by
  refine ⟨rfl, rfl, ?_, ?_⟩
  · intro commits hall
    cases commits with
    | nil => rfl
    | cons c rest =>
      have hfind : (c :: rest).find?
          (fun c => diffHasFlagTransition c.diff.data) = none := by
        rw [List.find?_eq_none]
        intro x hx
        simp [hall x hx]
      simp [getFlagSolver, hfind]
  · intro hdone
    constructor
    · intro hor
      cases hor with
      | inl h => simp [extractMetadata, hdone, h, jsOrStr]
      | inr h => simp [extractMetadata, hdone, h, jsOrStr]
    · intro a ha hne
      simp [extractMetadata, hdone, ha, jsOrStr, hne]

/-- C7 witness: a failing attribution (empty history) falls back to the
writeup's Solver field. -/
theorem c7_witness :
    (extractMetadata writeupSolved (some [])).solver = fileSolverOf writeupSolved :=
  ((c7_attribution_fallback writeupSolved (some [])).2.2.2 (by decide)).1
    (Or.inl rfl)

/-! ### C8: README flag cell rendering -/

/-- C8: the flag cell rule of the README renderer: the sentinel renders as
a literal TBD tag, the empty flag as "No flag", flags longer than 30
characters as their first 27 characters plus an ellipsis inside a
tooltip-bearing element whose title carries the quote-escaped full value,
and all other flags verbatim in backticks; in particular every flag of
length 45 takes the tooltip form. -/
theorem c8_flag_cell (flag : List Char) :
    (flag = "TBD".data → flagDisplay flag = "`TBD`".data) ∧
    (flag = [] → flagDisplay flag = "No flag".data) ∧
    (30 < flag.length →
      flagDisplay flag = "<code title=\"".data ++ escapeQuotes flag
        ++ "\">".data ++ flag.take 27 ++ "...</code>".data) ∧
    (flag ≠ [] → flag ≠ "TBD".data → flag.length ≤ 30 →
      flagDisplay flag = "`".data ++ flag ++ "`".data) ∧
    (flag.length = 45 →
      flagDisplay flag = "<code title=\"".data ++ escapeQuotes flag
        ++ "\">".data ++ flag.take 27 ++ "...</code>".data) := by
  have key : 30 < flag.length →
      flagDisplay flag = "<code title=\"".data ++ escapeQuotes flag
        ++ "\">".data ++ flag.take 27 ++ "...</code>".data := by
    intro hlen
    have h1 : flag ≠ [] := by
      intro he
      rw [he] at hlen
      exact absurd hlen (by decide)
    have h2 : ¬(flag == "TBD".data) = true := by
      intro he
      rw [beq_iff_eq] at he
      rw [he] at hlen
      exact absurd hlen (by decide)
    simp [flagDisplay, jsTruthyStr, h1, h2, hlen]
  refine ⟨?_, ?_, key, ?_, fun h45 => key (by omega)⟩
  · intro h
    subst h
    decide
  · intro h
    subst h
    decide
  · intro h1 h2 h3
    have hb : ¬(flag == "TBD".data) = true := by
      intro he
      exact h2 (beq_iff_eq.mp he)
    have hgt : ¬ 30 < flag.length := by omega
    simp [flagDisplay, jsTruthyStr, h1, hb, hgt]

/-- A concrete 45-character flag value. -/
def flag45 : List Char :=
  "CTF{aaaaaaaaaaaaaaaaaaaaaaaaaaaaaaaaaaaaaaaa}".data

/-- C8 witness: the tooltip form at the concrete 45-character flag. -/
theorem c8_witness :
    flagDisplay flag45 = "<code title=\"".data ++ escapeQuotes flag45
      ++ "\">".data ++ flag45.take 27 ++ "...</code>".data :=
  (c8_flag_cell flag45).2.2.2.2 (by decide)

/-! ### C9: task folder collision resolution -/

/-- C9: if the computed `{2-digit number}_{slug(name)}` folder is free it
is used as-is; if it already exists the timestamp suffix is appended,
giving a name distinct from the existing one (never an overwrite), so two
successive creations with identical inputs yield two distinct folders; the
suffix has at most six characters, exactly six for any realistic Unix
timestamp. -/
theorem c9_two_calls_distinct (existing : List String) (num : Nat)
    (nm : String) (t t2 : Nat) :
    (pad2 num ++ "_" ++ slugify nm ∉ existing →
      taskFolderName existing num nm t = pad2 num ++ "_" ++ slugify nm) ∧
    (pad2 num ++ "_" ++ slugify nm ∈ existing →
      taskFolderName existing num nm t
        = pad2 num ++ "_" ++ slugify nm ++ "_" ++ timestampSuffix t) ∧
    taskFolderName (existing ++ [pad2 num ++ "_" ++ slugify nm]) num nm t2
      ≠ pad2 num ++ "_" ++ slugify nm ∧
    (timestampSuffix t).length ≤ 6 ∧
    (timestampSuffix 1747000000).length = 6 := by
  have hsuffix : ∀ b ts : String, b ++ "_" ++ ts ≠ b := by
    intro b ts he
    have hl := congrArg String.length he
    rw [String.length_append, String.length_append] at hl
    have hu : ("_" : String).length = 1 := rfl
    omega
  refine ⟨?_, ?_, ?_, ?_, by decide⟩
  · intro hnotin
    simp [taskFolderName, hnotin]
  · intro hin
    simp [taskFolderName, hin]
  · have hin : pad2 num ++ "_" ++ slugify nm
        ∈ existing ++ [pad2 num ++ "_" ++ slugify nm] := by
      simp
    simp only [taskFolderName, hin, if_pos]
    exact hsuffix _ _
  · show (String.mk ((toString t).data.drop ((toString t).data.length - 6))).length ≤ 6
    have : (String.mk ((toString t).data.drop ((toString t).data.length - 6))).length
        = ((toString t).data.drop ((toString t).data.length - 6)).length := rfl
    rw [this, List.length_drop]
    omega

/-- C9 witness: creating the same task twice — the first call takes the
base name, the second gets the suffixed, distinct name. -/
theorem c9_witness :
    taskFolderName [] 7 "My Task" 1747000000 = "07_my_task" ∧
    taskFolderName ["07_my_task"] 7 "My Task" 1747000001
      = "07_my_task_000001" ∧
    ("07_my_task_000001" : String) ≠ "07_my_task" := by
  refine ⟨?_, ?_, by decide⟩
  · have h := (c9_two_calls_distinct [] 7 "My Task" 1747000000 0).1 (by decide)
    rw [h]
    decide
  · have h := (c9_two_calls_distinct ["07_my_task"] 7 "My Task" 1747000001 0).2.1
      (by decide)
    rw [h]
    decide

end Flagtrack
